import Mathlib

/-!
A shallow embedding of the streaming true-peak detector of `src/true_peak.rs`
from the `ebur128` crate, together with theorems about it.

Samples (`f64` in the source) are modelled by an arbitrary linearly ordered
ring: the detector itself performs no arithmetic on samples, only order
comparisons, and the modelled interpolator needs only ring operations, so
every definition and theorem is polymorphic in the carrier; concrete
witness instances use `ℤ`.  Machine integers (`u32`, `usize`) are modelled
as `Nat`, with the wrap of release-mode `u32` addition made explicit where
it occurs (`rate + 5`).
A call that panics (a failed `assert!`, or the out-of-bounds slice
`buffer_output[..n]`) is modelled as an `Except.error`.

The polyphase interpolator (`crate::interp::Interp`) is not part of the
sources; its model is marked `Modelled from the spec` below and follows
§4.3, §2 and the glossary of the specification: a stateful per-channel
polyphase FIR filter whose concrete coefficient design is out of scope and
is therefore a parameter (`bank`) of the construction.
-/

namespace Ebur128

variable {α : Type} [LinearOrderedRing α]

/-- Dot product of a coefficient list with a sample history (the shorter
list wins, matching a FIR that reads at most its own tap span). -/
def dot : List α → List α → α
  | [], _ => 0
  | _, [] => 0
  | x :: xs, y :: ys => x * y + dot xs ys

/-- Modelled from the spec: the state of the polyphase FIR interpolator of
`crate::interp` (not in the sources).  `coeffs` is the polyphase bank, one
coefficient list per phase ("each phase producing one of the inserted output
samples per original input sample", glossary); `hist` is the per-channel
input history, most recent sample first (§4.3 allows "internal
filter-state"). -/
structure Interp (α : Type) where
  taps : ℕ
  factor : ℕ
  channels : ℕ
  coeffs : List (List α)
  hist : List (List α)
  deriving DecidableEq

/-- Normalise a phase bank to exactly `n` phases.  A real polyphase bank has
one phase per inserted output sample, so this is the shape the actual filter
design guarantees by construction. -/
def fixLen (n : ℕ) (l : List (List α)) : List (List α) :=
  (l ++ List.replicate n []).take n

/-- Modelled from the spec: `Interp::new(taps, factor, channels)` (§4.3
"create(tapCount, oversamplingFactor, channelCount)").  The concrete filter
design (coefficient generation) is out of scope (§1), so the development is
parameterised by a coefficient bank keyed on tap count and factor. -/
def Interp.new (bank : ℕ → ℕ → List (List α)) (taps factor channels : ℕ) : Interp α :=
  ⟨taps, factor, channels, fixLen factor (bank taps factor), List.replicate channels []⟩

/-- `Interp::get_factor` (§4.3 "getFactor() → integer: the fixed
oversampling factor"). -/
def Interp.get_factor (ip : Interp α) : ℕ :=
  ip.factor

/-- Modelled from the spec: one channel of FIR interpolation.  Each input
sample is pushed onto the history and every phase emits one output sample,
its coefficients dotted with the history.  Returns the oversampled output
and the updated history. -/
def interpChan (phases : List (List α)) : List α → List α → List α × List α
  | hist, [] => ([], hist)
  | hist, x :: xs =>
    let r := interpChan phases (x :: hist) xs
    ((phases.map fun p => dot p (x :: hist)) ++ r.1, r.2)

/-- Modelled from the spec (§4.3): `Interp::process` reads `frames` samples
per channel from the planar `src` starting at `src_index`, and yields
`frames × channels × factor` output samples, channel sub-blocks in channel
order, updating the per-channel filter history. -/
def Interp.process (ip : Interp α) (src : List α) (src_index frames : ℕ) :
    List α × Interp α :=
  let stride := src.length / ip.channels
  let r := (List.range ip.channels).map fun c =>
    interpChan ip.coeffs (ip.hist.getD c [])
      ((src.drop (c * stride + src_index)).take frames)
  ((r.map Prod.fst).flatten,
    Interp.mk ip.taps ip.factor ip.channels ip.coeffs (r.map Prod.snd))

/-- How a call to `TruePeak::process` can panic: one of the three `assert!`
statements fails, or the slice `self.buffer_output[..n]` is out of bounds. -/
inductive PanicKind where
  | assertFailed
  | sliceOutOfBounds
  deriving DecidableEq

/-- The detector state (`struct TruePeak`, src/true_peak.rs lines 24-30). -/
structure TruePeak (α : Type) where
  interp : Interp α
  rate : ℕ
  channels : ℕ
  buffer_output : List α
  deriving DecidableEq

instance : Inhabited (Interp α) :=
  ⟨⟨0, 0, 0, [], []⟩⟩

instance : Inhabited (TruePeak α) :=
  ⟨⟨default, 0, 0, []⟩⟩

instance {ε α : Type} [DecidableEq ε] [DecidableEq α] : DecidableEq (Except ε α) :=
  fun x y =>
    match x, y with
    | .ok a, .ok b =>
      if h : a = b then .isTrue (by rw [h])
      else .isFalse (by intro hc; injection hc; contradiction)
    | .error e, .error f =>
      if h : e = f then .isTrue (by rw [h])
      else .isFalse (by intro hc; injection hc; contradiction)
    | .ok _, .error _ => .isFalse (by intro hc; exact Except.noConfusion hc)
    | .error _, .ok _ => .isFalse (by intro hc; exact Except.noConfusion hc)

/-- `TruePeak::new` (src/true_peak.rs lines 33-53): `samples_in_100ms` is
`(rate + 5) / 10` (`rate` is a `u32`; release-mode addition wraps, hence the
`% 2 ^ 32`); the rate tier selects the interpolator and the oversampling
factor, with rates of 192 kHz and above unsupported (`None`); the scratch
buffer has the length of the discarded `buffer_input`
(`4 * samples_in_100ms * channels`) times the factor. -/
def TruePeak.new (bank : ℕ → ℕ → List (List α)) (rate channels : ℕ) :
    Option (TruePeak α) :=
  let samples_in_100ms := ((rate + 5) % 2 ^ 32) / 10
  if rate < 96000 then
    some ⟨Interp.new bank 49 4 channels, rate, channels,
      List.replicate (4 * samples_in_100ms * channels * 4) 0⟩
  else if rate < 192000 then
    some ⟨Interp.new bank 49 2 channels, rate, channels,
      List.replicate (4 * samples_in_100ms * channels * 2) 0⟩
  else
    none

/-- The inner scan of `process`: `if *v > *peak { *peak = *v }` folded over
one channel's oversampled sub-block. -/
def updatePeak (chunk : List α) (peak : α) : α :=
  chunk.foldl (fun p v => if p < v then v else p) peak

/-- Fuelled worker for `chunksExact`; the fuel only bounds the recursion
depth and is irrelevant as long as it is at least the number of chunks. -/
def chunksExactAux : ℕ → ℕ → List α → List (List α)
  | 0, _, _ => []
  | fuel + 1, k, l =>
    if k = 0 ∨ l.length < k then []
    else l.take k :: chunksExactAux fuel k (l.drop k)

/-- Rust's `chunks_exact(k)` on a slice: the consecutive length-`k` chunks,
any shorter remainder dropped.  (`chunks_exact` panics for `k = 0`; the
model yields no chunks there — the detector only calls it with a positive
size, since `frames ≠ 0` on that path and a constructed detector's factor
is 2 or 4.) -/
def chunksExact (k : ℕ) (l : List α) : List (List α) :=
  chunksExactAux l.length k l

/-- The `.zip(peaks)` update loop of `process`: chunk `c` updates `peaks[c]`
in place; iteration stops when chunks or peaks run out, and the remaining
`peaks` entries are untouched. -/
def scanPeaks : List (List α) → List α → List α
  | [], ps => ps
  | _ :: _, [] => []
  | ch :: chs, p :: ps => updatePeak ch p :: scanPeaks chs ps

/-- `TruePeak::process` (src/true_peak.rs lines 55-90).  The per-channel
stride is the floor division `src.len() / self.channels`; the three
`assert!` statements and the slice `self.buffer_output[..n]`
(`n = frames * channels * interp_factor`) panic via `Except.error`; the
interpolator output overwrites the leading `n` entries of the scratch
buffer, whose chunks of `frames * interp_factor` then update `peaks`. -/
def TruePeak.process (tp : TruePeak α) (src : List α) (src_index frames : ℕ)
    (peaks : List α) : Except PanicKind (TruePeak α × List α) :=
  let src_stride := src.length / tp.channels
  if src_index + frames ≤ src_stride then
    if src_stride * tp.interp.get_factor ≤ tp.buffer_output.length then
      if peaks.length = tp.channels then
        if frames = 0 then .ok (tp, peaks)
        else
          let interp_factor := tp.interp.get_factor
          let n := frames * tp.channels * interp_factor
          if n ≤ tp.buffer_output.length then
            let r := tp.interp.process src src_index frames
            let buf := r.1 ++ tp.buffer_output.drop n
            .ok (TruePeak.mk r.2 tp.rate tp.channels buf,
              scanPeaks (chunksExact (frames * interp_factor) (buf.take n)) peaks)
          else .error .sliceOutOfBounds
      else .error .assertFailed
    else .error .assertFailed
  else .error .assertFailed

/-- Channel `c`'s oversampled sub-block for a given call: the slice of the
written region of scratch belonging to channel `c` (§4.2, step 2 of the
algorithm). -/
def subBlock (tp : TruePeak α) (src : List α) (src_index frames c : ℕ) : List α :=
  ((tp.interp.process src src_index frames).1.drop
      (c * (frames * tp.interp.get_factor))).take (frames * tp.interp.get_factor)

/-- Well-formedness established by `TruePeak.new` and preserved by
`process`: the interpolator has exactly `factor` phases and agrees with the
detector on the channel count. -/
def TruePeak.WF (tp : TruePeak α) : Prop :=
  tp.interp.coeffs.length = tp.interp.factor ∧ tp.interp.channels = tp.channels

instance (tp : TruePeak α) : Decidable tp.WF :=
  inferInstanceAs (Decidable (_ ∧ _))

/-- Detector states reachable from `tp` by zero or more successful
`process` calls. -/
inductive Reaches : TruePeak α → TruePeak α → Prop
  | refl (tp : TruePeak α) : Reaches tp tp
  | step {tp tp₁ : TruePeak α} {src : List α} {src_index frames : ℕ}
      {peaks : List α} {r : TruePeak α × List α} :
      Reaches tp tp₁ → tp₁.process src src_index frames peaks = .ok r →
      Reaches tp r.1

/-- A coefficient bank with no nonzero taps, used for concrete instances. -/
def bank0 : ℕ → ℕ → List (List ℤ) :=
  fun _ _ => []

/-- A coefficient bank with a single delayed unit tap, used for concrete
instances that exercise the interpolator's filter history. -/
def bank9 : ℕ → ℕ → List (List ℤ) :=
  fun _ _ => [[0, 1]]

/-- A concrete single-channel detector at rate 5 Hz (scratch length 16). -/
def tpA : TruePeak ℤ :=
  (TruePeak.new bank0 5 1).getD default

/-- A concrete two-channel detector at rate 5 Hz (scratch length 32). -/
def tpB : TruePeak ℤ :=
  (TruePeak.new bank0 5 2).getD default

/-- A concrete single-channel detector whose interpolator has a delayed
unit tap, so that its filter history is observable. -/
def tp9 : TruePeak ℤ :=
  (TruePeak.new bank9 5 1).getD default

/-- The result of one `process` call on `tpA` (used by witnesses). -/
def rA : TruePeak ℤ × List ℤ :=
  (tpA.process [1] 0 1 [0]).toOption.getD default

/-- The result of one `process` call on `tp9` (used by witnesses). -/
def r9 : TruePeak ℤ × List ℤ :=
  (tp9.process [1] 0 1 [0]).toOption.getD default

/-- The result of re-processing the identical window on the state left by
the first call on `tp9` (used by witnesses). -/
def r9' : TruePeak ℤ × List ℤ :=
  (r9.1.process [1] 0 1 r9.2).toOption.getD default

/-- A coefficient bank whose first phase copies the current input sample. -/
def bankI : ℕ → ℕ → List (List ℤ) :=
  fun _ _ => [[1]]

/-- A concrete two-channel detector whose interpolator copies its input. -/
def tpC : TruePeak ℤ :=
  (TruePeak.new bankI 5 2).getD default

/-- One `process` call on `tpC` with channel 1 carrying a 5. -/
def rC1 : TruePeak ℤ × List ℤ :=
  (tpC.process [3, 0, 5, 0] 0 1 [0, 0]).toOption.getD default

/-- One `process` call on `tpC` with channel 1 carrying a 7 instead. -/
def rC2 : TruePeak ℤ × List ℤ :=
  (tpC.process [3, 0, 7, 0] 0 1 [0, 0]).toOption.getD default

section Lemmas

omit [LinearOrderedRing α] in
lemma fixLen_length (n : ℕ) (l : List (List α)) : (fixLen n l).length = n := by
  simp [fixLen]

lemma updatePeak_nil (p : α) : updatePeak [] p = p := rfl

lemma updatePeak_cons (v : α) (t : List α) (p : α) :
    updatePeak (v :: t) p = updatePeak t (if p < v then v else p) := rfl

lemma le_updatePeak (ch : List α) (p : α) : p ≤ updatePeak ch p := by
  induction ch generalizing p with
  | nil => exact le_refl p
  | cons v t ih =>
    rw [updatePeak_cons]
    refine le_trans ?_ (ih (if p < v then v else p))
    by_cases h : p < v
    · rw [if_pos h]; exact le_of_lt h
    · rw [if_neg h]

lemma updatePeak_eq_foldl (ch : List α) (p : α) :
    updatePeak ch p = ch.foldl max p := by
  unfold updatePeak
  congr 1
  funext a b
  rcases le_or_lt b a with h | h
  · rw [if_neg (not_lt.mpr h), max_eq_left h]
  · rw [if_pos h, max_eq_right h.le]

lemma scanPeaks_length (chs : List (List α)) (ps : List α) :
    (scanPeaks chs ps).length = ps.length := by
  induction chs generalizing ps with
  | nil => rfl
  | cons ch chs ih =>
    cases ps with
    | nil => rfl
    | cons p ps => simp [scanPeaks, ih]

lemma scanPeaks_getD_le (chs : List (List α)) (ps : List α) (c : ℕ) :
    ps.getD c 0 ≤ (scanPeaks chs ps).getD c 0 := by
  induction chs generalizing ps c with
  | nil => exact le_refl _
  | cons ch chs ih =>
    cases ps with
    | nil => simp [scanPeaks]
    | cons p ps =>
      cases c with
      | zero => simpa [scanPeaks] using le_updatePeak ch p
      | succ c => simpa [scanPeaks] using ih ps c

lemma scanPeaks_getD_eq (chs : List (List α)) (ps : List α) (c : ℕ)
    (h1 : c < chs.length) (h2 : c < ps.length) :
    (scanPeaks chs ps).getD c 0 = updatePeak (chs.getD c []) (ps.getD c 0) := by
  induction chs generalizing ps c with
  | nil => simp at h1
  | cons ch chs ih =>
    cases ps with
    | nil => simp at h2
    | cons p ps =>
      cases c with
      | zero => simp [scanPeaks]
      | succ c =>
        simp only [scanPeaks, List.getD_cons_succ]
        exact ih ps c (by simpa using h1) (by simpa using h2)

lemma interpChan_nil (phases : List (List α)) (hist : List α) :
    interpChan phases hist [] = ([], hist) := rfl

lemma interpChan_fst_length (phases : List (List α)) (hist xs : List α) :
    (interpChan phases hist xs).1.length = xs.length * phases.length := by
  induction xs generalizing hist with
  | nil => simp [interpChan]
  | cons x xs ih =>
    simp only [interpChan, List.length_append, List.length_map, List.length_cons, ih]
    rw [Nat.succ_mul, Nat.add_comm]

lemma interpChan_fst_of_nil_phases (hist xs : List α) :
    (interpChan [] hist xs).1 = [] := by
  induction xs generalizing hist with
  | nil => rfl
  | cons x xs ih => simp [interpChan, ih]

omit [LinearOrderedRing α] in
lemma chunksExactAux_flatten (blocks : List (List α)) (L : ℕ) (hL : 0 < L)
    (hb : ∀ b ∈ blocks, b.length = L) :
    ∀ fuel, blocks.length ≤ fuel → chunksExactAux fuel L blocks.flatten = blocks := by
  induction blocks with
  | nil =>
    intro fuel _
    cases fuel with
    | zero => rfl
    | succ fuel => simp [chunksExactAux, hL]
  | cons b bs ih =>
    intro fuel hfuel
    cases fuel with
    | zero => simp at hfuel
    | succ fuel =>
      have hbL : b.length = L := hb b (by simp)
      have hcond : ¬(L = 0 ∨ (b :: bs).flatten.length < L) := by
        push_neg
        constructor
        · omega
        · simp [List.length_append, hbL]
      rw [chunksExactAux, if_neg hcond]
      have htake : (b ++ bs.flatten).take L = b := List.take_left' hbL
      have hdrop : (b ++ bs.flatten).drop L = bs.flatten := by
        rw [← hbL]
        exact List.drop_left b bs.flatten
      simp only [List.flatten_cons, htake, hdrop]
      rw [ih (fun x hx => hb x (List.mem_cons_of_mem _ hx)) fuel (by simp at hfuel; omega)]

omit [LinearOrderedRing α] in
lemma flatten_length_of_forall (blocks : List (List α)) (L : ℕ)
    (hb : ∀ b ∈ blocks, b.length = L) :
    blocks.flatten.length = blocks.length * L := by
  induction blocks with
  | nil => simp
  | cons b bs ih =>
    have hbL : b.length = L := hb b (by simp)
    simp only [List.flatten_cons, List.length_append, List.length_cons, hbL,
      ih (fun x hx => hb x (List.mem_cons_of_mem _ hx))]
    ring

omit [LinearOrderedRing α] in
lemma chunksExact_flatten (blocks : List (List α)) (L : ℕ) (hL : 0 < L)
    (hb : ∀ b ∈ blocks, b.length = L) :
    chunksExact L blocks.flatten = blocks := by
  unfold chunksExact
  refine chunksExactAux_flatten blocks L hL hb _ ?_
  rw [flatten_length_of_forall blocks L hb]
  exact Nat.le_mul_of_pos_right _ hL

omit [LinearOrderedRing α] in
lemma chunksExact_zero (l : List α) : chunksExact 0 l = [] := by
  unfold chunksExact
  cases h : l.length with
  | zero => rfl
  | succ m => simp [chunksExactAux]

omit [LinearOrderedRing α] in
lemma flatten_drop_take (blocks : List (List α)) (L c : ℕ)
    (hb : ∀ b ∈ blocks, b.length = L) (hc : c < blocks.length) :
    (blocks.flatten.drop (c * L)).take L = blocks.getD c [] := by
  induction blocks generalizing c with
  | nil => simp at hc
  | cons b bs ih =>
    have hbL : b.length = L := hb b (by simp)
    cases c with
    | zero =>
      simp only [Nat.zero_mul, List.drop_zero, List.flatten_cons, List.getD_cons_zero]
      exact List.take_left' hbL
    | succ c =>
      have : (c + 1) * L = b.length + c * L := by rw [hbL]; ring
      simp only [List.flatten_cons, List.getD_cons_succ, this, List.drop_append]
      exact ih c (fun x hx => hb x (List.mem_cons_of_mem _ hx)) (by simpa using hc)

omit [LinearOrderedRing α] in
lemma getD_map_range (f : ℕ → List α) (n c : ℕ) (hc : c < n) :
    ((List.range n).map f).getD c [] = f c := by
  rw [List.getD_eq_getElem?_getD, List.getElem?_map, List.getElem?_range hc]
  rfl

omit [LinearOrderedRing α] in
lemma window_length (src : List α) (n c idx frames : ℕ) (hc : c < n)
    (hidx : idx + frames ≤ src.length / n) :
    ((src.drop (c * (src.length / n) + idx)).take frames).length = frames := by
  have h1 : (c + 1) * (src.length / n) ≤ n * (src.length / n) :=
    mul_le_mul_right' (by omega) _
  have h2 : n * (src.length / n) ≤ src.length := by
    rw [Nat.mul_comm]
    exact Nat.div_mul_le_self src.length n
  have h3 : (c + 1) * (src.length / n) = c * (src.length / n) + src.length / n := by
    ring
  simp only [List.length_take, List.length_drop]
  omega

lemma interp_process_fst (ip : Interp α) (src : List α) (idx frames : ℕ) :
    (ip.process src idx frames).1 =
      ((List.range ip.channels).map fun c =>
        (interpChan ip.coeffs (ip.hist.getD c [])
          ((src.drop (c * (src.length / ip.channels) + idx)).take frames)).1).flatten := by
  simp only [Interp.process, List.map_map]
  rfl

lemma interp_process_snd_factor (ip : Interp α) (src : List α) (idx frames : ℕ) :
    (ip.process src idx frames).2.factor = ip.factor := rfl

lemma interp_process_snd_coeffs (ip : Interp α) (src : List α) (idx frames : ℕ) :
    (ip.process src idx frames).2.coeffs = ip.coeffs := rfl

lemma interp_process_snd_channels (ip : Interp α) (src : List α) (idx frames : ℕ) :
    (ip.process src idx frames).2.channels = ip.channels := rfl

lemma interp_blocks_length (ip : Interp α) (src : List α) (idx frames : ℕ)
    (hA1 : idx + frames ≤ src.length / ip.channels) :
    ∀ b ∈ ((List.range ip.channels).map fun c =>
        (interpChan ip.coeffs (ip.hist.getD c [])
          ((src.drop (c * (src.length / ip.channels) + idx)).take frames)).1),
      b.length = frames * ip.coeffs.length := by
  intro b hb
  simp only [List.mem_map, List.mem_range] at hb
  obtain ⟨c, hc, rfl⟩ := hb
  rw [interpChan_fst_length, window_length src ip.channels c idx frames hc hA1]

lemma interp_process_fst_length (ip : Interp α) (src : List α) (idx frames : ℕ)
    (hA1 : idx + frames ≤ src.length / ip.channels) :
    (ip.process src idx frames).1.length = frames * ip.channels * ip.coeffs.length := by
  rw [interp_process_fst,
    flatten_length_of_forall _ (frames * ip.coeffs.length)
      (interp_blocks_length ip src idx frames hA1),
    List.length_map, List.length_range]
  ring

lemma process_ok_inv {tp : TruePeak α} {src : List α} {idx frames : ℕ}
    {peaks : List α} {r : TruePeak α × List α}
    (h : tp.process src idx frames peaks = .ok r) :
    idx + frames ≤ src.length / tp.channels ∧
    (src.length / tp.channels) * tp.interp.get_factor ≤ tp.buffer_output.length ∧
    peaks.length = tp.channels ∧
    ((frames = 0 ∧ r = (tp, peaks)) ∨
      (frames ≠ 0 ∧
        frames * tp.channels * tp.interp.get_factor ≤ tp.buffer_output.length ∧
        r = (TruePeak.mk (tp.interp.process src idx frames).2 tp.rate tp.channels
              ((tp.interp.process src idx frames).1 ++
                tp.buffer_output.drop (frames * tp.channels * tp.interp.get_factor)),
            scanPeaks (chunksExact (frames * tp.interp.get_factor)
              (((tp.interp.process src idx frames).1 ++
                tp.buffer_output.drop
                  (frames * tp.channels * tp.interp.get_factor)).take
                (frames * tp.channels * tp.interp.get_factor))) peaks))) := by
  simp only [TruePeak.process] at h
  split_ifs at h with h1 h2 h3 h4 h5
  · injection h with h'
    exact ⟨h1, h2, h3, Or.inl ⟨h4, h'.symm⟩⟩
  · injection h with h'
    exact ⟨h1, h2, h3, Or.inr ⟨h4, h5, h'.symm⟩⟩

lemma process_zero (tp : TruePeak α) (src : List α) (idx : ℕ) (peaks : List α)
    (h1 : idx ≤ src.length / tp.channels)
    (h2 : (src.length / tp.channels) * tp.interp.get_factor ≤ tp.buffer_output.length)
    (h3 : peaks.length = tp.channels) :
    tp.process src idx 0 peaks = .ok (tp, peaks) := by
  simp [TruePeak.process, h1, h2, h3]

lemma process_pos (tp : TruePeak α) (src : List α) (idx frames : ℕ) (peaks : List α)
    (h1 : idx + frames ≤ src.length / tp.channels)
    (h2 : (src.length / tp.channels) * tp.interp.get_factor ≤ tp.buffer_output.length)
    (h3 : peaks.length = tp.channels) (h4 : frames ≠ 0)
    (h5 : frames * tp.channels * tp.interp.get_factor ≤ tp.buffer_output.length) :
    tp.process src idx frames peaks =
      .ok (TruePeak.mk (tp.interp.process src idx frames).2 tp.rate tp.channels
            ((tp.interp.process src idx frames).1 ++
              tp.buffer_output.drop (frames * tp.channels * tp.interp.get_factor)),
          scanPeaks (chunksExact (frames * tp.interp.get_factor)
            (((tp.interp.process src idx frames).1 ++
              tp.buffer_output.drop
                (frames * tp.channels * tp.interp.get_factor)).take
              (frames * tp.channels * tp.interp.get_factor))) peaks) := by
  simp only [TruePeak.process]
  rw [if_pos h1, if_pos h2, if_pos h3, if_neg h4, if_pos h5]

lemma process_error_assert_iff (tp : TruePeak α) (src : List α) (idx frames : ℕ)
    (peaks : List α) :
    tp.process src idx frames peaks = .error .assertFailed ↔
      ¬(idx + frames ≤ src.length / tp.channels ∧
        (src.length / tp.channels) * tp.interp.get_factor ≤ tp.buffer_output.length ∧
        peaks.length = tp.channels) := by
  simp only [TruePeak.process]
  split_ifs with h1 h2 h3 h4 h5 <;> simp_all

lemma process_ok_peaks_mono {tp : TruePeak α} {src : List α} {idx frames : ℕ}
    {peaks : List α} {r : TruePeak α × List α}
    (h : tp.process src idx frames peaks = .ok r) (c : ℕ) :
    peaks.getD c 0 ≤ r.2.getD c 0 := by
  obtain ⟨hA1, hA2, hA3, hcase⟩ := process_ok_inv h
  rcases hcase with ⟨hf, rfl⟩ | ⟨hf, hn, rfl⟩
  · exact le_refl _
  · exact scanPeaks_getD_le _ _ _

lemma process_ok_peaks_getD {tp : TruePeak α} {src : List α} {idx frames : ℕ}
    {peaks : List α} {r : TruePeak α × List α} (hwf : tp.WF)
    (h : tp.process src idx frames peaks = .ok r) {c : ℕ} (hc : c < tp.channels) :
    r.2.getD c 0 =
      updatePeak ((interpChan tp.interp.coeffs (tp.interp.hist.getD c [])
          ((src.drop (c * (src.length / tp.channels) + idx)).take frames)).1)
        (peaks.getD c 0) := by
  obtain ⟨hA1, hA2, hA3, hcase⟩ := process_ok_inv h
  obtain ⟨hwf1, hwf2⟩ := hwf
  rcases hcase with ⟨hf, rfl⟩ | ⟨hf, hn, rfl⟩
  · subst hf
    simp [interpChan_nil, updatePeak_nil]
  · by_cases hfac : tp.interp.factor = 0
    · have hcnil : tp.interp.coeffs = [] :=
        List.length_eq_zero.mp (by rw [hwf1, hfac])
      simp [Interp.get_factor, hfac, chunksExact_zero, scanPeaks, hcnil,
        interpChan_fst_of_nil_phases, updatePeak_nil]
    · have hfac' : 0 < tp.interp.factor := Nat.pos_of_ne_zero hfac
      have hA1' : idx + frames ≤ src.length / tp.interp.channels := by
        rw [hwf2]; exact hA1
      have hLb : ∀ b ∈ ((List.range tp.interp.channels).map fun c =>
          (interpChan tp.interp.coeffs (tp.interp.hist.getD c [])
            ((src.drop (c * (src.length / tp.interp.channels) + idx)).take frames)).1),
          b.length = frames * tp.interp.get_factor := by
        intro b hb
        rw [show tp.interp.get_factor = tp.interp.coeffs.length from (hwf1).symm]
        exact interp_blocks_length tp.interp src idx frames hA1' b hb
      have houtlen : (tp.interp.process src idx frames).1.length =
          frames * tp.channels * tp.interp.get_factor := by
        rw [interp_process_fst_length tp.interp src idx frames hA1', hwf1, hwf2]
        rfl
      have htake : (((tp.interp.process src idx frames).1 ++
          tp.buffer_output.drop (frames * tp.channels * tp.interp.get_factor)).take
          (frames * tp.channels * tp.interp.get_factor)) =
          (tp.interp.process src idx frames).1 :=
        List.take_left' houtlen
      have hL : 0 < frames * tp.interp.get_factor :=
        Nat.mul_pos (Nat.pos_of_ne_zero hf) hfac'
      have hchunks : chunksExact (frames * tp.interp.get_factor)
          (tp.interp.process src idx frames).1 =
          ((List.range tp.interp.channels).map fun c =>
            (interpChan tp.interp.coeffs (tp.interp.hist.getD c [])
              ((src.drop (c * (src.length / tp.interp.channels) + idx)).take
                frames)).1) := by
        rw [interp_process_fst]
        exact chunksExact_flatten _ _ hL hLb
      dsimp only
      rw [htake, hchunks,
        scanPeaks_getD_eq _ _ _
          (by rw [List.length_map, List.length_range, hwf2]; exact hc)
          (by rw [hA3]; exact hc),
        getD_map_range _ _ _ (by rw [hwf2]; exact hc), hwf2]

lemma process_ok_state {tp : TruePeak α} {src : List α} {idx frames : ℕ}
    {peaks : List α} {r : TruePeak α × List α} (hwf : tp.WF)
    (h : tp.process src idx frames peaks = .ok r) :
    r.1.buffer_output.length = tp.buffer_output.length ∧ r.1.WF ∧
      r.1.interp.get_factor = tp.interp.get_factor ∧ r.1.channels = tp.channels ∧
      r.2.length = peaks.length := by
  obtain ⟨hA1, hA2, hA3, hcase⟩ := process_ok_inv h
  obtain ⟨hwf1, hwf2⟩ := hwf
  rcases hcase with ⟨hf, rfl⟩ | ⟨hf, hn, rfl⟩
  · exact ⟨rfl, ⟨hwf1, hwf2⟩, rfl, rfl, rfl⟩
  · have hA1' : idx + frames ≤ src.length / tp.interp.channels := by
      rw [hwf2]; exact hA1
    have houtlen : (tp.interp.process src idx frames).1.length =
        frames * tp.channels * tp.interp.get_factor := by
      rw [interp_process_fst_length tp.interp src idx frames hA1', hwf1, hwf2]
      rfl
    refine ⟨?_, ⟨?_, ?_⟩, ?_, ?_, ?_⟩
    · dsimp only
      rw [List.length_append, List.length_drop, houtlen]
      omega
    · dsimp only
      rw [interp_process_snd_coeffs, interp_process_snd_factor]
      exact hwf1
    · dsimp only
      rw [interp_process_snd_channels]
      exact hwf2
    · dsimp only
      rfl
    · rfl
    · dsimp only
      rw [scanPeaks_length]

lemma new_eq_low (bank : ℕ → ℕ → List (List α)) {rate : ℕ} (channels : ℕ)
    (h : rate < 96000) :
    TruePeak.new bank rate channels =
      some ⟨Interp.new bank 49 4 channels, rate, channels,
        List.replicate (4 * (((rate + 5) % 2 ^ 32) / 10) * channels * 4) 0⟩ := by
  simp [TruePeak.new, h]

lemma new_eq_mid (bank : ℕ → ℕ → List (List α)) {rate : ℕ} (channels : ℕ)
    (h1 : ¬rate < 96000) (h2 : rate < 192000) :
    TruePeak.new bank rate channels =
      some ⟨Interp.new bank 49 2 channels, rate, channels,
        List.replicate (4 * (((rate + 5) % 2 ^ 32) / 10) * channels * 2) 0⟩ := by
  simp [TruePeak.new, h1, h2]

lemma new_eq_high (bank : ℕ → ℕ → List (List α)) {rate : ℕ} (channels : ℕ)
    (h : ¬rate < 192000) :
    TruePeak.new bank rate channels = none := by
  simp [TruePeak.new, h, show ¬rate < 96000 by omega]

lemma new_wf {bank : ℕ → ℕ → List (List α)} {rate channels : ℕ} {tp : TruePeak α}
    (h : TruePeak.new bank rate channels = some tp) :
    tp.WF ∧ tp.channels = channels := by
  simp only [TruePeak.new] at h
  split_ifs at h with h1 h2
  · injection h with h'
    subst h'
    exact ⟨⟨fixLen_length _ _, rfl⟩, rfl⟩
  · injection h with h'
    subst h'
    exact ⟨⟨fixLen_length _ _, rfl⟩, rfl⟩

lemma reaches_wf_len {tp tp' : TruePeak α} (hwf : tp.WF) (h : Reaches tp tp') :
    tp'.WF ∧ tp'.buffer_output.length = tp.buffer_output.length ∧
      tp'.interp.get_factor = tp.interp.get_factor := by
  induction h with
  | refl => exact ⟨hwf, rfl, rfl⟩
  | step _ hstep ih =>
    obtain ⟨ih1, ih2, ih3⟩ := ih
    obtain ⟨hlen, hwf', hfac, _, _⟩ := process_ok_state ih1 hstep
    exact ⟨hwf', by rw [hlen, ih2], by rw [hfac, ih3]⟩

end Lemmas

/-- Claim C1: for every rate in `[1, 95999]` and every positive channel
count, `create(rate, channels)` succeeds and yields a detector with
oversampling factor 4; for every rate in `[96000, 191999]` it succeeds with
oversampling factor 2; for every rate ≥ 192000 it returns the `Unsupported`
outcome (`None`) instead of a detector. -/
theorem truePeak_new_rate_tiers (bank : ℕ → ℕ → List (List α))
    (rate channels : ℕ) :
    (1 ≤ rate → rate ≤ 95999 → 0 < channels →
      (TruePeak.new bank rate channels).map (fun tp => tp.interp.get_factor) =
        some 4) ∧
    (96000 ≤ rate → rate ≤ 191999 → 0 < channels →
      (TruePeak.new bank rate channels).map (fun tp => tp.interp.get_factor) =
        some 2) ∧
    (192000 ≤ rate → TruePeak.new bank rate channels = none) := by
  refine ⟨?_, ?_, ?_⟩
  · intro h1 h2 _
    rw [new_eq_low bank channels (by omega)]
    rfl
  · intro h1 h2 _
    rw [new_eq_mid bank channels (by omega) (by omega)]
    rfl
  · intro h
    exact new_eq_high bank channels (by omega)

/-- Witness for C1 at rates 48000, 96000 and 192000. -/
theorem truePeak_new_rate_tiers_witness :
    ((TruePeak.new bank0 48000 2).map (fun tp => tp.interp.get_factor) =
      some 4) ∧
    ((TruePeak.new bank0 96000 1).map (fun tp => tp.interp.get_factor) =
      some 2) ∧
    (TruePeak.new bank0 192000 1 = none) :=
  ⟨(truePeak_new_rate_tiers bank0 48000 2).1 (by decide) (by decide) (by decide),
   (truePeak_new_rate_tiers bank0 96000 1).2.1 (by decide) (by decide) (by decide),
   (truePeak_new_rate_tiers bank0 192000 1).2.2 (by decide)⟩

/-- Claim C2: peak accumulators are monotone non-decreasing under `process`:
whenever a call returns, each entry of the resulting `peaks` is greater than
or equal to the entry it replaced, so along every sequence of calls
`peaks[c]` after call k is ≥ its value after call k − 1 and no `process`
call ever decreases any entry. -/
theorem truePeak_process_peaks_monotone {tp : TruePeak α} {src : List α}
    {src_index frames : ℕ} {peaks : List α} {r : TruePeak α × List α}
    (h : tp.process src src_index frames peaks = .ok r) (c : ℕ) :
    peaks.getD c 0 ≤ r.2.getD c 0 :=
  process_ok_peaks_mono h c

/-- Witness for C2 on a concrete call. -/
theorem truePeak_process_peaks_monotone_witness :
    ([(0 : ℤ)].getD 0 0) ≤ rA.2.getD 0 0 :=
  truePeak_process_peaks_monotone
    (by decide : tpA.process [1] 0 1 [0] = .ok rA) 0

/-- Claim C3: for every detector and every source, window start and peaks
satisfying the call preconditions, `process` with `frames = 0` is a no-op:
it returns with `peaks` bit-for-bit equal to its value on entry (and the
detector state unchanged). -/
theorem truePeak_process_zero_frames_identity {tp : TruePeak α} {src : List α}
    {src_index : ℕ} {peaks : List α}
    (h1 : src_index ≤ src.length / tp.channels)
    (h2 : (src.length / tp.channels) * tp.interp.get_factor ≤
      tp.buffer_output.length)
    (h3 : peaks.length = tp.channels) :
    tp.process src src_index 0 peaks = .ok (tp, peaks) :=
  process_zero tp src src_index peaks h1 h2 h3

/-- Witness for C3 on a concrete call. -/
theorem truePeak_process_zero_frames_identity_witness :
    tpA.process [1, 1] 0 0 [0] = .ok (tpA, [0]) :=
  truePeak_process_zero_frames_identity (by decide) (by decide) (by decide)

/-- Claim C4: the per-channel scan compares raw signed oversampled values
against the running maximum, never taking absolute value: for every valid
call, `peaks[c]` after the call equals the maximum of `peaks[c]` before the
call and the signed (not absolute) values in channel c's oversampled
sub-block. -/
theorem truePeak_process_peak_eq_signed_max {tp : TruePeak α} {src : List α}
    {src_index frames : ℕ} {peaks : List α} {r : TruePeak α × List α}
    (hwf : tp.WF) (h : tp.process src src_index frames peaks = .ok r)
    {c : ℕ} (hc : c < tp.channels) :
    r.2.getD c 0 =
      (subBlock tp src src_index frames c).foldl max (peaks.getD c 0) := by
  obtain ⟨hA1, _, _, _⟩ := process_ok_inv h
  obtain ⟨hwf1, hwf2⟩ := hwf
  have hA1' : src_index + frames ≤ src.length / tp.interp.channels := by
    rw [hwf2]; exact hA1
  have hLb : ∀ b ∈ ((List.range tp.interp.channels).map fun c =>
      (interpChan tp.interp.coeffs (tp.interp.hist.getD c [])
        ((src.drop (c * (src.length / tp.interp.channels) + src_index)).take
          frames)).1),
      b.length = frames * tp.interp.get_factor := by
    intro b hb
    rw [show tp.interp.get_factor = tp.interp.coeffs.length from hwf1.symm]
    exact interp_blocks_length tp.interp src src_index frames hA1' b hb
  have hsub : subBlock tp src src_index frames c =
      (interpChan tp.interp.coeffs (tp.interp.hist.getD c [])
        ((src.drop (c * (src.length / tp.channels) + src_index)).take
          frames)).1 := by
    unfold subBlock
    rw [interp_process_fst,
      flatten_drop_take _ (frames * tp.interp.get_factor) c hLb
        (by rw [List.length_map, List.length_range, hwf2]; exact hc),
      getD_map_range _ _ _ (by rw [hwf2]; exact hc), hwf2]
  rw [process_ok_peaks_getD ⟨hwf1, hwf2⟩ h hc, updatePeak_eq_foldl, hsub]

/-- Witness for C4 on a concrete call with a delayed unit tap. -/
theorem truePeak_process_peak_eq_signed_max_witness :
    r9.2.getD 0 0 = (subBlock tp9 [1] 0 1 0).foldl max ([(0 : ℤ)].getD 0 0) :=
  truePeak_process_peak_eq_signed_max (by decide)
    (by decide : tp9.process [1] 0 1 [0] = .ok r9) (by decide)

/-- Claim C5: for every supported rate and channel count, construction sets
`samplesIn100ms = (rate + 5) / 10` in integer arithmetic (a nearest-integer
rounding of rate/10, i.e. within 5 of `rate`, after scaling by 10) and
allocates the scratch buffer with length exactly
`4 × samplesIn100ms × channels × oversamplingFactor`, never resized by any
later successful `process` call. -/
theorem truePeak_new_scratch_size_never_resized
    {bank : ℕ → ℕ → List (List α)} {rate channels : ℕ} {tp : TruePeak α}
    (hnew : TruePeak.new bank rate channels = some tp) :
    ((10 * ((rate + 5) / 10) : ℤ) - rate).natAbs ≤ 5 ∧
    ∀ tp', Reaches tp tp' →
      tp'.buffer_output.length =
        4 * ((rate + 5) / 10) * channels * tp.interp.get_factor := by
  have hrate : rate < 192000 := by
    by_contra hr
    rw [new_eq_high bank channels hr] at hnew
    exact Option.noConfusion hnew
  have hpow : (2 : ℕ) ^ 32 = 4294967296 := by norm_num
  have hmod : (rate + 5) % 2 ^ 32 = rate + 5 := Nat.mod_eq_of_lt (by omega)
  constructor
  · omega
  · intro tp' hre
    obtain ⟨hwf, _⟩ := new_wf hnew
    obtain ⟨_, hlen, _⟩ := reaches_wf_len hwf hre
    rw [hlen]
    simp only [TruePeak.new] at hnew
    split_ifs at hnew with h1
    · injection hnew with h'
      subst h'
      dsimp only [Interp.get_factor, Interp.new]
      rw [List.length_replicate, hmod]
    · injection hnew with h'
      subst h'
      dsimp only [Interp.get_factor, Interp.new]
      rw [List.length_replicate, hmod]

/-- Witness for C5: the scratch of a concrete rate-5 detector, after one
`process` call, still has the constructed length. -/
theorem truePeak_new_scratch_size_never_resized_witness :
    ((10 * ((5 + 5) / 10) : ℤ) - 5).natAbs ≤ 5 ∧
    rA.1.buffer_output.length =
      4 * ((5 + 5) / 10) * 1 * tpA.interp.get_factor :=
  ⟨(truePeak_new_scratch_size_never_resized
      (by decide : TruePeak.new bank0 5 1 = some tpA)).1,
   (truePeak_new_scratch_size_never_resized
      (by decide : TruePeak.new bank0 5 1 = some tpA)).2 rA.1
     (Reaches.step (Reaches.refl tpA)
       (by decide : tpA.process [1] 0 1 [0] = .ok rA))⟩

/-- Claim C6: a call to `process` fails with an unconditional assertion
failure exactly when the window exceeds the per-channel stride, or the
stride times the oversampling factor exceeds the scratch length, or the
accumulator length differs from the channel count; when all three contract
conditions hold, an assertion failure is unreachable. -/
theorem truePeak_process_assert_failure_iff (tp : TruePeak α) (src : List α)
    (src_index frames : ℕ) (peaks : List α) :
    tp.process src src_index frames peaks = .error .assertFailed ↔
      ¬(src_index + frames ≤ src.length / tp.channels ∧
        (src.length / tp.channels) * tp.interp.get_factor ≤
          tp.buffer_output.length ∧
        peaks.length = tp.channels) :=
  process_error_assert_iff tp src src_index frames peaks

/-- Counterexample for C7: a two-channel call whose source length 3 is not
divisible by the channel count does not panic at all — `process` returns
normally, so the planar-layout contract item is not enforced by an
assertion. -/
theorem truePeak_process_no_divisibility_assert_cex :
    ([1, 0, 1] : List ℤ).length % tpC.channels ≠ 0 ∧
    (tpC.process [1, 0, 1] 0 1 [0, 0]).isOk = true := by
  exact ⟨by decide, by decide⟩

/-- Claim C7 (amended): a source length that does not divide evenly by the
channel count is never rejected: `process` floor-divides
(`stride = src.len() / channels`, remainder ignored) and, when the three
checked assertions hold, never fails an assertion — succeeding outright
whenever the written region also fits the scratch buffer. -/
theorem truePeak_process_nondivisible_source_not_rejected {tp : TruePeak α}
    {src : List α} {src_index frames : ℕ} {peaks : List α}
    (_hnd : src.length % tp.channels ≠ 0)
    (h1 : src_index + frames ≤ src.length / tp.channels)
    (h2 : (src.length / tp.channels) * tp.interp.get_factor ≤
      tp.buffer_output.length)
    (h3 : peaks.length = tp.channels) :
    tp.process src src_index frames peaks ≠ .error .assertFailed ∧
    (frames * tp.channels * tp.interp.get_factor ≤ tp.buffer_output.length →
      (tp.process src src_index frames peaks).isOk = true) := by
  constructor
  · rw [Ne, process_error_assert_iff]
    exact not_not_intro ⟨h1, h2, h3⟩
  · intro h5
    by_cases hf : frames = 0
    · subst hf
      rw [process_zero tp src src_index peaks (by omega) h2 h3]
      rfl
    · rw [process_pos tp src src_index frames peaks h1 h2 h3 hf h5]
      rfl

/-- Witness for the amended C7 on a concrete non-divisible call. -/
theorem truePeak_process_nondivisible_source_not_rejected_witness :
    (tpC.process ([1, 0, 1] : List ℤ) 0 1 [0, 0]).isOk = true ∧
    tpC.process ([1, 0, 1] : List ℤ) 0 1 [0, 0] ≠ .error .assertFailed :=
  ⟨(truePeak_process_nondivisible_source_not_rejected (by decide) (by decide)
      (by decide) (by decide)).2 (by decide),
   (truePeak_process_nondivisible_source_not_rejected (by decide) (by decide)
      (by decide) (by decide)).1⟩

/-- Claim C8: channel isolation — for every valid call and every pair of
distinct channels i and j, two runs from the same detector state whose
sources have equal length and differ only inside channel j's per-channel
segment compute the same resulting accumulator value for channel i. -/
theorem truePeak_process_channel_isolation {tp : TruePeak α}
    {src₁ src₂ : List α} {src_index frames : ℕ} {peaks : List α}
    {r₁ r₂ : TruePeak α × List α} {i j : ℕ} (hwf : tp.WF)
    (hlen : src₁.length = src₂.length)
    (hi : i < tp.channels) (_hj : j < tp.channels) (hij : i ≠ j)
    (hagree : ∀ k, k < src₁.length →
      (k < j * (src₁.length / tp.channels) ∨
        (j + 1) * (src₁.length / tp.channels) ≤ k) →
      src₁.getD k 0 = src₂.getD k 0)
    (h₁ : tp.process src₁ src_index frames peaks = .ok r₁)
    (h₂ : tp.process src₂ src_index frames peaks = .ok r₂) :
    r₁.2.getD i 0 = r₂.2.getD i 0 := by
  obtain ⟨hA1, _, _, _⟩ := process_ok_inv h₁
  have hS : src₂.length / tp.channels = src₁.length / tp.channels := by
    rw [hlen]
  have e1 : (i + 1) * (src₁.length / tp.channels) ≤
      tp.channels * (src₁.length / tp.channels) :=
    mul_le_mul_right' (by omega) _
  have e2 : tp.channels * (src₁.length / tp.channels) ≤ src₁.length := by
    rw [Nat.mul_comm]
    exact Nat.div_mul_le_self src₁.length tp.channels
  have e3 : (i + 1) * (src₁.length / tp.channels) =
      i * (src₁.length / tp.channels) + src₁.length / tp.channels := by
    ring
  have hwin : ((src₁.drop (i * (src₁.length / tp.channels) + src_index)).take
      frames) =
      ((src₂.drop (i * (src₁.length / tp.channels) + src_index)).take
        frames) := by
    apply List.ext_getElem
    · simp only [List.length_take, List.length_drop, hlen]
    · intro t h1t h2t
      have ht : t < frames := by
        simp only [List.length_take] at h1t
        omega
      have hk : i * (src₁.length / tp.channels) + src_index + t <
          src₁.length := by
        simp only [List.length_take, List.length_drop] at h1t
        omega
      rw [List.getElem_take, List.getElem_drop, List.getElem_take,
        List.getElem_drop]
      have hout : i * (src₁.length / tp.channels) + src_index + t <
            j * (src₁.length / tp.channels) ∨
          (j + 1) * (src₁.length / tp.channels) ≤
            i * (src₁.length / tp.channels) + src_index + t := by
        rcases lt_or_gt_of_ne hij with hij' | hij'
        · left
          have : (i + 1) * (src₁.length / tp.channels) ≤
              j * (src₁.length / tp.channels) :=
            mul_le_mul_right' (by omega) _
          omega
        · right
          have : (j + 1) * (src₁.length / tp.channels) ≤
              i * (src₁.length / tp.channels) :=
            mul_le_mul_right' (by omega) _
          omega
      have := hagree (i * (src₁.length / tp.channels) + src_index + t) hk hout
      rw [List.getD_eq_getElem _ _ hk, List.getD_eq_getElem _ _ (by omega)]
        at this
      convert this using 2
  rw [process_ok_peaks_getD hwf h₁ hi, process_ok_peaks_getD hwf h₂ hi, hS,
    hwin]

/-- Witness for C8: two concrete two-channel runs differing only in
channel 1 agree on channel 0's accumulator. -/
theorem truePeak_process_channel_isolation_witness :
    rC1.2.getD 0 0 = rC2.2.getD 0 0 :=
  @truePeak_process_channel_isolation ℤ _ tpC [3, 0, 5, 0] [3, 0, 7, 0] 0 1
    [0, 0] rC1 rC2 0 1 (by decide) (by decide) (by decide) (by decide)
    (by decide) (by decide)
    (by decide : tpC.process [3, 0, 5, 0] 0 1 [0, 0] = .ok rC1)
    (by decide : tpC.process [3, 0, 7, 0] 0 1 [0, 0] = .ok rC2)

/-- Counterexample for C9: on the same detector instance, re-processing the
identical source, window start, frame count and accumulator array changes
`peaks` beyond the first call's value — the interpolator's filter history
makes the second call produce different oversampled values ([0] after call
one, [1] after call two). -/
theorem truePeak_reprocess_identical_window_cex :
    tp9.process [1] 0 1 [0] = .ok r9 ∧
    r9.1.process [1] 0 1 r9.2 = .ok r9' ∧
    r9.2 = [0] ∧ r9'.2 = [1] ∧ ([1] : List ℤ) ≠ [0] :=
  ⟨by decide, by decide, by decide, by decide, by decide⟩

/-- Claim C9 (amended): re-processing an identical window a second time
never moves any accumulator entry below its value after the first call
(the peaks remain an upper bound and only grow); exact equality does not
hold in general because the upsampler keeps internal filter history. -/
theorem truePeak_reprocess_identical_window_monotone {tp : TruePeak α}
    {src : List α} {src_index frames : ℕ} {peaks : List α}
    {r₁ r₂ : TruePeak α × List α}
    (_h₁ : tp.process src src_index frames peaks = .ok r₁)
    (h₂ : r₁.1.process src src_index frames r₁.2 = .ok r₂) (c : ℕ) :
    r₁.2.getD c 0 ≤ r₂.2.getD c 0 :=
  process_ok_peaks_mono h₂ c

/-- Witness for the amended C9 on the concrete re-processed window. -/
theorem truePeak_reprocess_identical_window_monotone_witness :
    r9.2.getD 0 0 ≤ r9'.2.getD 0 0 :=
  truePeak_reprocess_identical_window_monotone
    (by decide : tp9.process [1] 0 1 [0] = .ok r9)
    (by decide : r9.1.process [1] 0 1 r9.2 = .ok r9') 0

/-- Claim C10: even when `frames = 0`, `process` evaluates the three
contract assertions before the early return: a call whose contract is
violated panics instead of being the identity no-op. -/
theorem truePeak_process_asserts_precede_zero_frames_return {tp : TruePeak α}
    {src : List α} {src_index : ℕ} {peaks : List α}
    (hviol : ¬(src_index ≤ src.length / tp.channels ∧
      (src.length / tp.channels) * tp.interp.get_factor ≤
        tp.buffer_output.length ∧
      peaks.length = tp.channels)) :
    tp.process src src_index 0 peaks = .error .assertFailed := by
  rw [process_error_assert_iff]
  intro hcon
  exact hviol ⟨hcon.1, hcon.2.1, hcon.2.2⟩

/-- Witness for C10: a zero-frame call with a wrong-length accumulator
panics. -/
theorem truePeak_process_asserts_precede_zero_frames_return_witness :
    tpA.process [1] 0 0 ([] : List ℤ) = .error .assertFailed :=
  truePeak_process_asserts_precede_zero_frames_return (by decide)

end Ebur128
